import Mathlib

/-!
Verification of the heuristic extraction and matching engine of
`src/Project/ecourts_scraper.py` against its design specification.

The embedding models the pure core of the scraper:

* `find_case_in_cause_list` (source lines 179-193): the Case Matcher;
* `parse_cause_list_html` (source lines 124-176): the Schedule-Table
  Extractor, with the page abstracted as the list of tables, each table a
  list of rows, each row the list of its cell texts (the values produced by
  `td.get_text(" ", strip=True)`; BeautifulSoup itself is an external
  collaborator);
* `parse_case_status_html` (source lines 76-121): the Case-Status Extractor,
  taking the flattened page text (`soup.get_text(" ", strip=True)` is the
  external Text Normalizer);
* `resolve_listing` (the Listing Resolver, inlined in `main`, source lines
  478-513), with the current/next IST day strings passed as parameters
  (they come from the clock, an external input).

Character-level conventions: Python's `\s`, `str.strip`, `str.lower` and the
regex character classes are modelled over their ASCII behaviour, which covers
every character class the source's regexes name.
-/

/-- Python's whitespace class `\s` over ASCII: space, tab, newline, carriage
return, vertical tab, form feed. -/
def pyWs (c : Char) : Bool :=
  decide (c.toNat = 32 ∨ c.toNat = 9 ∨ c.toNat = 10 ∨ c.toNat = 13 ∨
    c.toNat = 11 ∨ c.toNat = 12)

/-- Python's `str.lower` on one character (ASCII range). -/
def pyLowerChar (c : Char) : Char :=
  if 65 ≤ c.toNat ∧ c.toNat ≤ 90 then Char.ofNat (c.toNat + 32) else c

/-- Python's `str.lower` over the characters of a string. -/
def pyLower (l : List Char) : List Char := l.map pyLowerChar

/-- Helper for `collapseWs`: the flag records whether the previous character
was whitespace (so a whitespace run emits a single space). -/
def collapseWsAux : Bool → List Char → List Char
  | _, [] => []
  | inWs, c :: cs =>
    if pyWs c then
      if inWs then collapseWsAux true cs else ' ' :: collapseWsAux true cs
    else c :: collapseWsAux false cs

/-- Python's `re.sub(r"\s+", " ", s)`: every maximal whitespace run becomes
one space. -/
def collapseWs (l : List Char) : List Char := collapseWsAux false l

/-- Python's `str.strip`: drop leading and trailing whitespace. -/
def pyStrip (l : List Char) : List Char :=
  ((l.dropWhile pyWs).reverse.dropWhile pyWs).reverse

/-- The normalisation of `find_case_in_cause_list` (source lines 185 and 189):
`re.sub(r"\s+", " ", s).strip().lower()`. -/
def normPy (s : String) : List Char := pyLower (pyStrip (collapseWs s.data))

/-- Boolean prefix test on character lists (Python's `startswith`). -/
def prefOf : List Char → List Char → Bool
  | [], _ => true
  | _ :: _, [] => false
  | a :: as, b :: bs => a == b && prefOf as bs

/-- Boolean contiguous-segment test: Python's `in` on strings. -/
def segIn (a l : List Char) : Bool :=
  (List.range (l.length + 1)).any fun i => prefOf a (l.drop i)

theorem toNat_ofNat_small (n : Nat) (h : n < 55296) : (Char.ofNat n).toNat = n := by
  have hv : Nat.isValidChar n := Or.inl h
  simp only [Char.ofNat, hv, dite_true, Char.ofNatAux, Char.toNat]
  simp [UInt32.toNat]

theorem pyWs_pyLowerChar (c : Char) : pyWs (pyLowerChar c) = pyWs c := by
  unfold pyLowerChar
  split
  case isTrue h =>
    have h32 : (Char.ofNat (c.toNat + 32)).toNat = c.toNat + 32 :=
      toNat_ofNat_small _ (by omega)
    have l : pyWs (Char.ofNat (c.toNat + 32)) = false := by
      simp only [pyWs, h32, decide_eq_false_iff_not]
      omega
    have r : pyWs c = false := by
      simp only [pyWs, decide_eq_false_iff_not]
      omega
    rw [l, r]
  case isFalse h => rfl

theorem prefOf_iff (a : List Char) : ∀ l, prefOf a l = true ↔ ∃ y, l = a ++ y := by
  induction a with
  | nil =>
    intro l
    simp [prefOf]
  | cons c cs ih =>
    intro l
    cases l with
    | nil =>
      simp [prefOf]
    | cons b bs =>
      simp only [prefOf, Bool.and_eq_true, beq_iff_eq, ih bs]
      constructor
      · rintro ⟨rfl, y, rfl⟩
        exact ⟨y, rfl⟩
      · rintro ⟨y, hy⟩
        cases hy
        exact ⟨rfl, y, rfl⟩

theorem segIn_iff (a l : List Char) : segIn a l = true ↔ ∃ x y, l = x ++ a ++ y := by
  unfold segIn
  rw [List.any_eq_true]
  constructor
  · rintro ⟨i, _, hp⟩
    obtain ⟨y, hy⟩ := (prefOf_iff a (l.drop i)).1 hp
    refine ⟨l.take i, y, ?_⟩
    conv_lhs => rw [← List.take_append_drop i l]
    rw [hy, List.append_assoc]
  · rintro ⟨x, y, rfl⟩
    refine ⟨x.length, ?_, ?_⟩
    · rw [List.mem_range]
      simp [Nat.lt_succ_iff]
    · rw [List.append_assoc, List.drop_left]
      exact (prefOf_iff a _).2 ⟨y, rfl⟩

theorem dropWhile_head_false {p : Char → Bool} :
    ∀ (l : List Char) {c t}, l.dropWhile p = c :: t → p c = false := by
  intro l
  induction l with
  | nil => intro c t h; cases h
  | cons b bs ih =>
    intro c t h
    rw [List.dropWhile_cons] at h
    by_cases hb : p b = true
    · rw [if_pos hb] at h
      exact ih h
    · rw [if_neg hb] at h
      cases h
      exact Bool.not_eq_true _ |>.mp hb

theorem dropWhile_idem (p : Char → Bool) (l : List Char) :
    (l.dropWhile p).dropWhile p = l.dropWhile p := by
  cases h : l.dropWhile p with
  | nil => rfl
  | cons c t =>
    rw [List.dropWhile_cons, if_neg]
    rw [dropWhile_head_false l h]
    simp

theorem length_dropWhile_le (p : Char → Bool) (l : List Char) :
    (l.dropWhile p).length ≤ l.length := by
  induction l with
  | nil => simp
  | cons c cs ih =>
    rw [List.dropWhile_cons]
    by_cases h : p c = true
    · rw [if_pos h]
      exact Nat.le_succ_of_le ih
    · rw [if_neg h]

theorem pyStrip_decomp_drop (l : List Char) :
    ∃ s, (∀ c ∈ s, pyWs c = true) ∧ l.dropWhile pyWs = pyStrip l ++ s := by
  set d := l.dropWhile pyWs with hd
  refine ⟨(d.reverse.takeWhile pyWs).reverse, ?_, ?_⟩
  · intro c hc
    rw [List.mem_reverse] at hc
    exact List.mem_takeWhile_imp hc
  · have h1 : d.reverse.takeWhile pyWs ++ d.reverse.dropWhile pyWs = d.reverse :=
      List.takeWhile_append_dropWhile pyWs d.reverse
    have h2 := congrArg List.reverse h1
    rw [List.reverse_append, List.reverse_reverse] at h2
    rw [pyStrip, ← hd]
    exact h2.symm

theorem pyStrip_decomp (l : List Char) :
    ∃ p s, (∀ c ∈ p, pyWs c = true) ∧ (∀ c ∈ s, pyWs c = true) ∧
      l = p ++ pyStrip l ++ s := by
  obtain ⟨s, hs, hdrop⟩ := pyStrip_decomp_drop l
  refine ⟨l.takeWhile pyWs, s, ?_, hs, ?_⟩
  · intro c hc
    exact List.mem_takeWhile_imp hc
  · conv_lhs => rw [← List.takeWhile_append_dropWhile pyWs l]
    rw [hdrop, List.append_assoc]

theorem pyStrip_head_false {l : List Char} {c : Char} {t : List Char}
    (h : pyStrip l = c :: t) : pyWs c = false := by
  obtain ⟨s, _, hdrop⟩ := pyStrip_decomp_drop l
  rw [h] at hdrop
  exact dropWhile_head_false l hdrop

theorem pyStrip_reverse_stable (l : List Char) :
    (pyStrip l).reverse.dropWhile pyWs = (pyStrip l).reverse := by
  rw [pyStrip, List.reverse_reverse]
  exact dropWhile_idem pyWs _

theorem pyStrip_last_false {l : List Char} {c : Char} {t : List Char}
    (h : (pyStrip l).reverse = c :: t) : pyWs c = false := by
  have hs := pyStrip_reverse_stable l
  rw [h] at hs
  by_cases hc : pyWs c = true
  · rw [List.dropWhile_cons, if_pos hc] at hs
    have := congrArg List.length hs
    have hle := length_dropWhile_le pyWs t
    simp at this
    omega
  · exact Bool.not_eq_true _ |>.mp hc

theorem pyLower_pyStrip (l : List Char) :
    pyLower (pyStrip l) = pyStrip (pyLower l) := by
  have hfun : (pyWs ∘ pyLowerChar) = pyWs := by
    funext c
    exact pyWs_pyLowerChar c
  have hmd : ∀ m : List Char,
      List.map pyLowerChar (m.dropWhile pyWs) = (List.map pyLowerChar m).dropWhile pyWs := by
    intro m
    rw [List.dropWhile_map, hfun]
  calc
    pyLower (pyStrip l)
        = (List.map pyLowerChar ((l.dropWhile pyWs).reverse.dropWhile pyWs)).reverse := by
          rw [pyLower, pyStrip, List.map_reverse]
    _ = ((List.map pyLowerChar (l.dropWhile pyWs).reverse).dropWhile pyWs).reverse := by
          rw [hmd]
    _ = (((List.map pyLowerChar (l.dropWhile pyWs)).reverse).dropWhile pyWs).reverse := by
          rw [List.map_reverse]
    _ = ((((List.map pyLowerChar l).dropWhile pyWs).reverse).dropWhile pyWs).reverse := by
          rw [hmd]
    _ = pyStrip (pyLower l) := rfl

theorem seg_cons_cases {a : List Char} {c : Char} {l : List Char}
    (h : ∃ x y, c :: l = x ++ a ++ y) :
    (∃ y, c :: l = a ++ y) ∨ ∃ x y, l = x ++ a ++ y := by
  obtain ⟨x, y, hxy⟩ := h
  cases x with
  | nil =>
    left
    exact ⟨y, by simpa using hxy⟩
  | cons b bs =>
    right
    rw [List.cons_append, List.cons_append] at hxy
    injection hxy with _ htail
    exact ⟨bs, y, by simpa using htail⟩

theorem seg_reverse {a l : List Char} (h : ∃ x y, l = x ++ a ++ y) :
    ∃ x y, l.reverse = x ++ a.reverse ++ y := by
  obtain ⟨x, y, rfl⟩ := h
  refine ⟨y.reverse, x.reverse, ?_⟩
  rw [List.reverse_append, List.reverse_append, List.append_assoc]

theorem seg_drop_ws_left {a : List Char}
    (ha : ∀ c t, a = c :: t → pyWs c = false) :
    ∀ (p : List Char), (∀ c ∈ p, pyWs c = true) →
      ∀ {m : List Char}, (∃ x y, p ++ m = x ++ a ++ y) → ∃ x y, m = x ++ a ++ y := by
  intro p
  induction p with
  | nil =>
    intro _ m h
    simpa using h
  | cons b bs ih =>
    intro hp m h
    rw [List.cons_append] at h
    rcases seg_cons_cases h with hpre | hrest
    · obtain ⟨y, hy⟩ := hpre
      cases a with
      | nil => exact ⟨[], m, by simp⟩
      | cons c t =>
        rw [List.cons_append] at hy
        injection hy with hc _
        have hcw : pyWs c = false := ha c t rfl
        have hbw : pyWs b = true := hp b (by simp)
        rw [← hc] at hcw
        rw [hcw] at hbw
        cases hbw
    · exact ih (fun c hc => hp c (List.mem_cons_of_mem b hc)) hrest

theorem seg_drop_ws_right {a : List Char}
    (ha : ∀ c t, a.reverse = c :: t → pyWs c = false)
    {m s : List Char} (hs : ∀ c ∈ s, pyWs c = true)
    (h : ∃ x y, m ++ s = x ++ a ++ y) : ∃ x y, m = x ++ a ++ y := by
  have hrev := seg_reverse h
  rw [List.reverse_append] at hrev
  have hsrev : ∀ c ∈ s.reverse, pyWs c = true := by
    intro c hc
    exact hs c (List.mem_reverse.mp hc)
  have hm := seg_drop_ws_left ha s.reverse hsrev hrev
  have hback := seg_reverse hm
  rw [List.reverse_reverse, List.reverse_reverse] at hback
  exact hback

theorem seg_strip_iff (a T : List Char)
    (h1 : ∀ c t, a = c :: t → pyWs c = false)
    (h2 : ∀ c t, a.reverse = c :: t → pyWs c = false) :
    (∃ x y, pyStrip T = x ++ a ++ y) ↔ ∃ x y, T = x ++ a ++ y := by
  obtain ⟨p, s, hp, hs, hT⟩ := pyStrip_decomp T
  constructor
  · rintro ⟨x, y, hxy⟩
    refine ⟨p ++ x, y ++ s, ?_⟩
    rw [hT, hxy]
    simp [List.append_assoc]
  · rintro hseg
    have hps : p ++ (pyStrip T ++ s) = T := by
      conv_rhs => rw [hT]
      simp [List.append_assoc]
    rw [← hps] at hseg
    have h3 := seg_drop_ws_left h1 p hp hseg
    exact seg_drop_ws_right h2 hs h3

/-- A parsed schedule row (the dict built at source lines 169-175). -/
structure ScheduleRow where
  serial : String
  case_text : Option String
  purpose : Option String
  court_info : Option String
  raw_cells : List String
deriving DecidableEq, Repr

/-- The Case Matcher, source lines 179-193: normalise the key, then return
the first entry whose joined `raw_cells`, normalised the same way, contains
it. -/
def find_case_in_cause_list : List ScheduleRow → String → Option ScheduleRow
  | [], _ => none
  | e :: es, key =>
    if segIn (normPy key) (normPy (String.intercalate " " e.raw_cells)) then some e
    else find_case_in_cause_list es key

/-- The identifier as the specification describes it: whitespace-collapsed,
lower-cased, and trimmed. -/
def claimKeyNorm (s : String) : List Char := pyStrip (pyLower (collapseWs s.data))

/-- A row's comparison text as the specification describes it: `raw_cells`
joined with single spaces, whitespace-collapsed and lower-cased. -/
def claimRowNorm (cells : List String) : List Char :=
  pyLower (collapseWs (String.intercalate " " cells).data)

/-- The specification's match predicate: the normalised identifier occurs as
a contiguous substring of the row's normalised joined cell text. -/
def claimMatches (key : String) (e : ScheduleRow) : Prop :=
  ∃ x y, claimRowNorm e.raw_cells = x ++ claimKeyNorm key ++ y

theorem normPy_eq_claimKeyNorm (s : String) : normPy s = claimKeyNorm s := by
  rw [normPy, claimKeyNorm, pyLower_pyStrip]

theorem codeMatch_iff_claimMatches (key : String) (e : ScheduleRow) :
    segIn (normPy key) (normPy (String.intercalate " " e.raw_cells)) = true ↔
      claimMatches key e := by
  have hkey : normPy key = claimKeyNorm key := normPy_eq_claimKeyNorm key
  have hrow : normPy (String.intercalate " " e.raw_cells) =
      pyStrip (claimRowNorm e.raw_cells) := by
    rw [normPy, pyLower_pyStrip, claimRowNorm]
  rw [hkey, hrow, segIn_iff, claimMatches]
  exact seg_strip_iff (claimKeyNorm key) (claimRowNorm e.raw_cells)
    (fun c t h =>
      pyStrip_head_false (show pyStrip (pyLower (collapseWs key.data)) = c :: t from h))
    (fun c t h =>
      pyStrip_last_false
        (show (pyStrip (pyLower (collapseWs key.data))).reverse = c :: t from h))

theorem find_case_some_spec (entries : List ScheduleRow) (key : String) :
    ∀ e, find_case_in_cause_list entries key = some e →
      ∃ pre post, entries = pre ++ e :: post ∧ claimMatches key e ∧
        ∀ e2 ∈ pre, ¬ claimMatches key e2 := by
  induction entries with
  | nil => intro e h; cases h
  | cons a es ih =>
    intro e h
    simp only [find_case_in_cause_list] at h
    by_cases hc : segIn (normPy key) (normPy (String.intercalate " " a.raw_cells)) = true
    · rw [if_pos hc] at h
      injection h with he
      subst he
      exact ⟨[], es, rfl, (codeMatch_iff_claimMatches key a).1 hc, by simp⟩
    · rw [if_neg hc] at h
      obtain ⟨pre, post, heq, hm, hpre⟩ := ih e h
      refine ⟨a :: pre, post, by rw [heq, List.cons_append], hm, ?_⟩
      intro e2 he2
      rcases List.mem_cons.mp he2 with rfl | h2
      · intro hcm
        exact hc ((codeMatch_iff_claimMatches key e2).2 hcm)
      · exact hpre e2 h2

theorem find_case_none_iff (entries : List ScheduleRow) (key : String) :
    find_case_in_cause_list entries key = none ↔ ∀ e ∈ entries, ¬ claimMatches key e := by
  induction entries with
  | nil => simp [find_case_in_cause_list]
  | cons a es ih =>
    simp only [find_case_in_cause_list]
    by_cases hc : segIn (normPy key) (normPy (String.intercalate " " a.raw_cells)) = true
    · rw [if_pos hc]
      constructor
      · intro h; cases h
      · intro h
        exact absurd ((codeMatch_iff_claimMatches key a).1 hc) (h a (by simp))
    · rw [if_neg hc, ih]
      constructor
      · intro h e2 he2
        rcases List.mem_cons.mp he2 with rfl | h2
        · intro hcm
          exact hc ((codeMatch_iff_claimMatches key e2).2 hcm)
        · exact h e2 h2
      · intro h e2 he2
        exact h e2 (List.mem_cons_of_mem a he2)

/-- The example row of the specification: `raw_cells = ["12", "OS 45/2023",
"Evidence"]`. -/
def sampleRow12 : ScheduleRow :=
  { serial := "12", case_text := some "OS 45/2023", purpose := none,
    court_info := none, raw_cells := ["12", "OS 45/2023", "Evidence"] }

/-- C1: `find_case_in_cause_list` returns the first row (in input order) whose
`raw_cells` joined with single spaces, whitespace-collapsed and lower-cased,
contains the whitespace-collapsed, lower-cased, trimmed identifier as a
contiguous substring, and returns `none` when no row qualifies; in particular
the row `["12", "OS 45/2023", "Evidence"]` is returned for identifier
`"OS 45/2023"` and no row for `"OS 999/2023"`. -/
theorem match_case_first_row_spec (entries : List ScheduleRow) (key : String) :
    (∀ e, find_case_in_cause_list entries key = some e →
      ∃ pre post, entries = pre ++ e :: post ∧ claimMatches key e ∧
        ∀ e2 ∈ pre, ¬ claimMatches key e2)
    ∧ (find_case_in_cause_list entries key = none ↔
        ∀ e ∈ entries, ¬ claimMatches key e)
    ∧ find_case_in_cause_list [sampleRow12] "OS 45/2023" = some sampleRow12
    ∧ find_case_in_cause_list [sampleRow12] "OS 999/2023" = none :=
  ⟨find_case_some_spec entries key, find_case_none_iff entries key,
    by decide, by decide⟩

theorem collapseWsAux_all_ws :
    ∀ (l : List Char), (∀ c ∈ l, pyWs c = true) → collapseWsAux true l = [] := by
  intro l
  induction l with
  | nil => intro _; rfl
  | cons c cs ih =>
    intro h
    simp only [collapseWsAux, h c (by simp), if_true]
    exact ih fun d hd => h d (List.mem_cons_of_mem c hd)

theorem normPy_blank (key : String) (h : key.data.all pyWs = true) :
    normPy key = [] := by
  have hall : ∀ c ∈ key.data, pyWs c = true := List.all_eq_true.mp h
  have hcol : collapseWs key.data = [] ∨ collapseWs key.data = [' '] := by
    cases hk : key.data with
    | nil => left; rfl
    | cons c cs =>
      right
      have hc : pyWs c = true := hall c (by rw [hk]; simp)
      simp only [collapseWs, collapseWsAux, hc, if_true]
      rw [collapseWsAux_all_ws cs fun d hd => hall d (by rw [hk]; exact List.mem_cons_of_mem c hd)]
      simp
  rcases hcol with hc | hc <;> rw [normPy, hc] <;> rfl

theorem segIn_nil_left (l : List Char) : segIn [] l = true := by
  rw [segIn_iff]
  exact ⟨[], l, rfl⟩

/-- C10: an identifier that is empty or all whitespace normalises to the
empty string, which is contained in every row's text, so the matcher returns
the first row of any non-empty entry list. -/
theorem match_case_blank_key (e : ScheduleRow) (es : List ScheduleRow) (key : String)
    (h : key.data.all pyWs = true) :
    find_case_in_cause_list (e :: es) key = some e := by
  simp only [find_case_in_cause_list]
  rw [normPy_blank key h, if_pos (segIn_nil_left _)]

/-- C10 witness: a three-space identifier returns the sample row. -/
theorem match_case_blank_key_witness :
    find_case_in_cause_list [sampleRow12] "   " = some sampleRow12 :=
  match_case_blank_key sampleRow12 [] "   " (by decide)

/-- Python's `\w` word-character class over ASCII (for `\b` boundaries). -/
def isWordChar (c : Char) : Bool := c.isAlphanum || c == '_'

/-- The character `k` positions into `cs` equals `c` (false past the end). -/
def charIs (cs : List Char) (i : Nat) (c : Char) : Bool :=
  match cs.drop i with
  | d :: _ => d == c
  | [] => false

/-- The `k` characters of `cs` starting at `i` exist and are all digits. -/
def allDigitsAt (cs : List Char) (i k : Nat) : Bool :=
  decide (((cs.drop i).take k).length = k) && ((cs.drop i).take k).all Char.isDigit

/-- The `k` characters of `cs` starting at `i` exist and are all ASCII
letters. -/
def allAlphaAt (cs : List Char) (i k : Nat) : Bool :=
  decide (((cs.drop i).take k).length = k) && ((cs.drop i).take k).all Char.isAlpha

/-- A regex `\b` boundary holds just before position `i` (the character at
`i` being a word character). -/
def boundaryBefore (cs : List Char) (i : Nat) : Bool :=
  decide (i = 0) || !isWordChar (cs.getD (i - 1) ' ')

/-- A regex `\b` boundary holds just after position `j - 1` (the character at
`j - 1` being a word character). -/
def boundaryAfter (cs : List Char) (j : Nat) : Bool :=
  decide (cs.length ≤ j) || !isWordChar (cs.getD j ' ')

/-- Length of the whitespace run starting at position `i`. -/
def wsRunLenAt (cs : List Char) (i : Nat) : Nat :=
  ((cs.drop i).takeWhile pyWs).length

/-- Python's `re.search(r"\b\d{1,6}\/\d{4}\b", cell)` as an existence test
(source line 155, first alternative). -/
def searchSlashNum (cs : List Char) : Bool :=
  (List.range cs.length).any fun i =>
    boundaryBefore cs i &&
    ((List.range 6).any fun a0 =>
      let a := a0 + 1
      allDigitsAt cs i a && charIs cs (i + a) '/' && allDigitsAt cs (i + a + 1) 4 &&
        boundaryAfter cs (i + a + 5))

/-- Python's `re.search(r"[A-Za-z]{1,10}\s*\d{1,6}\/\d{4}", cell)` as an
existence test (source line 155, second alternative). -/
def searchAlphaSlashNum (cs : List Char) : Bool :=
  (List.range cs.length).any fun i =>
    (List.range 10).any fun a0 =>
      let a := a0 + 1
      allAlphaAt cs i a &&
        (let j := i + a + wsRunLenAt cs (i + a)
         (List.range 6).any fun b0 =>
           let b := b0 + 1
           allDigitsAt cs j b && charIs cs (j + b) '/' && allDigitsAt cs (j + b + 1) 4)

/-- The case-number heuristic of source lines 154-157: either pattern occurs
in the cell. -/
def hasCaseNum (cell : String) : Bool :=
  searchSlashNum cell.data || searchAlphaSlashNum cell.data

/-- The purpose heuristic of source lines 159-162:
`re.search(r"(?i)(purpose|stage|for hearing|listing)", cell)`. -/
def hasPurposeWord (cell : String) : Bool :=
  let low := pyLower cell.data
  segIn "purpose".data low || segIn "stage".data low ||
    segIn "for hearing".data low || segIn "listing".data low

/-- The court heuristic of source lines 164-167:
`re.search(r"(?i)\bCourt\b", cell)`. -/
def hasCourtWord (cell : String) : Bool :=
  let low := pyLower cell.data
  (List.range low.length).any fun i =>
    prefOf "court".data (low.drop i) && boundaryBefore low i && boundaryAfter low (i + 5)

/-- Python's `re.fullmatch(r"\d{1,4}", s)` (source line 142). -/
def digits1to4 (s : String) : Bool :=
  decide (1 ≤ s.data.length) && decide (s.data.length ≤ 4) && s.data.all Char.isDigit

/-- Consume a literal prefix, returning the rest (none when it is not a
prefix). -/
def stripPref : List Char → List Char → Option (List Char)
  | [], l => some l
  | _ :: _, [] => none
  | a :: as, b :: bs => if a == b then stripPref as bs else none

/-- Python's `re.match(r"(?i)(sr\.?\s*no\.?|serial)", s)` (source line 144):
an anchored, case-insensitive header test. The pattern is deterministic: a
dot can only be consumed by `\.?` and whitespace only by `\s*`. -/
def isHeaderCell (s : String) : Bool :=
  let low := pyLower s.data
  (match stripPref ['s', 'r'] low with
   | some r1 =>
     let r2 := match r1 with
       | '.' :: t => t
       | other => other
     prefOf ['n', 'o'] (r2.dropWhile pyWs)
   | none => false)
  || prefOf ['s', 'e', 'r', 'i', 'a', 'l'] low

/-- The row dictionary built at source lines 148-175 for a recognised data
row. -/
def buildRow (tds : List String) : ScheduleRow :=
  { serial := tds.headD ""
    case_text := ((tds.drop 1).take 3).find? hasCaseNum
    purpose := tds.find? hasPurposeWord
    court_info := tds.find? hasCourtWord
    raw_cells := tds }

/-- One `tr` of the source loop (lines 135-175): skip rows with fewer than 2
cells, emit a row when the first cell is 1-4 digits, skip header-like rows,
skip anything else. -/
def rowToEntry (tds : List String) : Option ScheduleRow :=
  if tds.length < 2 then none
  else if digits1to4 (tds.headD "") then some (buildRow tds)
  else if isHeaderCell (tds.headD "") then none
  else none

/-- The Schedule-Table Extractor, source lines 124-176. The page markup is
abstracted as its list of tables, each table the list of its rows, each row
the list of its cell texts. -/
def parse_cause_list_html (tables : List (List (List String))) : List ScheduleRow :=
  tables.flatMap fun table => table.filterMap rowToEntry

theorem rowToEntry_some_iff (tds : List String) (r : ScheduleRow) :
    rowToEntry tds = some r ↔
      2 ≤ tds.length ∧ digits1to4 (tds.headD "") = true ∧ r = buildRow tds := by
  unfold rowToEntry
  by_cases h1 : tds.length < 2
  · rw [if_pos h1]
    constructor
    · intro h; cases h
    · rintro ⟨h2, -, -⟩; omega
  · rw [if_neg h1]
    by_cases h2 : digits1to4 (tds.headD "") = true
    · rw [if_pos h2]
      constructor
      · intro h
        injection h with h
        exact ⟨by omega, h2, h.symm⟩
      · rintro ⟨-, -, rfl⟩; rfl
    · rw [if_neg h2]
      have hnone : (if isHeaderCell (tds.headD "") = true then none
          else (none : Option ScheduleRow)) = none := by
        split <;> rfl
      rw [hnone]
      constructor
      · intro h; cases h
      · rintro ⟨-, hc, -⟩; exact absurd hc h2

theorem parse_cause_list_mem_iff (tables : List (List (List String))) (r : ScheduleRow) :
    r ∈ parse_cause_list_html tables ↔
      ∃ tab ∈ tables, ∃ row ∈ tab, rowToEntry row = some r := by
  unfold parse_cause_list_html
  rw [List.mem_flatMap]
  constructor
  · rintro ⟨tab, htab, hr⟩
    obtain ⟨row, hrow, hsome⟩ := List.mem_filterMap.mp hr
    exact ⟨tab, htab, row, hrow, hsome⟩
  · rintro ⟨tab, htab, row, hrow, hsome⟩
    exact ⟨tab, htab, List.mem_filterMap.mpr ⟨row, hrow, hsome⟩⟩

/-- C4: `parse_cause_list_html` emits a row exactly for those table rows with
at least 2 cells whose first cell is a pure 1-4 digit string; the first cell
is stored verbatim as the serial (so `"007"` keeps its leading zeros and is
`raw_cells.headD ""`), and header-like or other non-digit first cells are
skipped, so no emitted row has serial `"Sr No."`. -/
theorem extract_schedule_rows_spec (tables : List (List (List String))) :
    (∀ r, r ∈ parse_cause_list_html tables ↔
      ∃ tab ∈ tables, ∃ row ∈ tab, 2 ≤ row.length ∧
        digits1to4 (row.headD "") = true ∧ r = buildRow row)
    ∧ (∀ r ∈ parse_cause_list_html tables,
        r.serial = r.raw_cells.headD "" ∧ digits1to4 r.serial = true ∧
          r.serial ≠ "Sr No.")
    ∧ parse_cause_list_html [[["Sr No.", "Case No", "Purpose"],
        ["007", "ABC/2020", "Hearing"]]] = [buildRow ["007", "ABC/2020", "Hearing"]]
    ∧ (buildRow ["007", "ABC/2020", "Hearing"]).serial = "007" := by
  refine ⟨?_, ?_, by decide, by decide⟩
  · intro r
    rw [parse_cause_list_mem_iff]
    constructor
    · rintro ⟨tab, htab, row, hrow, hsome⟩
      obtain ⟨h1, h2, h3⟩ := (rowToEntry_some_iff row r).mp hsome
      exact ⟨tab, htab, row, hrow, h1, h2, h3⟩
    · rintro ⟨tab, htab, row, hrow, h1, h2, h3⟩
      exact ⟨tab, htab, row, hrow, (rowToEntry_some_iff row r).mpr ⟨h1, h2, h3⟩⟩
  · intro r hr
    obtain ⟨tab, -, row, -, -, h2, h3⟩ := (by
      rw [parse_cause_list_mem_iff] at hr
      obtain ⟨tab, htab, row, hrow, hsome⟩ := hr
      exact ⟨tab, htab, row, hrow, (rowToEntry_some_iff row r).mp hsome⟩ :
        ∃ tab ∈ tables, ∃ row ∈ tab, 2 ≤ row.length ∧
          digits1to4 (row.headD "") = true ∧ r = buildRow row)
    subst h3
    refine ⟨rfl, h2, ?_⟩
    intro hbad
    rw [show (buildRow row).serial = row.headD "" from rfl] at hbad
    rw [hbad] at h2
    exact absurd h2 (by decide)

theorem rowToEntry_none (row : List String)
    (h : row.length < 2 ∨ digits1to4 (row.headD "") = false) :
    rowToEntry row = none := by
  unfold rowToEntry
  by_cases h1 : row.length < 2
  · rw [if_pos h1]
  · rw [if_neg h1]
    rcases h with h | h
    · exact absurd h h1
    · rw [if_neg (by rw [h]; exact Bool.false_ne_true)]
      split <;> rfl

/-- C6: the extractor is total by construction (a pure function over the
abstracted markup); a page with zero tables yields the empty sequence, and
so does a page in which no row has at least 2 cells and a 1-4 digit first
cell. -/
theorem extract_schedule_rows_empty (tables : List (List (List String)))
    (h : ∀ tab ∈ tables, ∀ row ∈ tab,
      row.length < 2 ∨ digits1to4 (row.headD "") = false) :
    parse_cause_list_html tables = [] ∧ parse_cause_list_html [] = [] := by
  constructor
  · unfold parse_cause_list_html
    rw [List.flatMap_eq_nil_iff]
    intro tab htab
    rw [List.filterMap_eq_nil_iff]
    intro row hrow
    exact rowToEntry_none row (h tab htab row hrow)
  · rfl

/-- C6 witness: a page with one header row and one one-cell row yields the
empty sequence, and so does the empty page. -/
theorem extract_schedule_rows_empty_witness :
    parse_cause_list_html [[["Sr No.", "Case No", "Purpose"], ["loose text"]]] = [] ∧
      parse_cause_list_html [] = [] :=
  extract_schedule_rows_empty [[["Sr No.", "Case No", "Purpose"], ["loose text"]]]
    (by decide)

/-- A hearing record (source line 114: `{"date": dt, "purpose": purpose}`). -/
structure HearingEntry where
  date : String
  purpose : Option String
deriving DecidableEq, Repr

/-- Case-insensitive literal match at the front: the pattern (given in
lowercase) is consumed against the lowered input; the unconsumed rest is
returned. -/
def stripPrefCI : List Char → List Char → Option (List Char)
  | [], l => some l
  | _ :: _, [] => none
  | a :: as, b :: bs => if a == pyLowerChar b then stripPrefCI as bs else none

/-- The claim-side fixed date pattern: exactly `\d{2}-\d{2}-\d{4}`. -/
def isDatePattern (s : String) : Bool :=
  match s.data with
  | [a, b, c, d, e, f, g, h, i, j] =>
    a.isDigit && b.isDigit && c == '-' && d.isDigit && e.isDigit && f == '-' &&
      g.isDigit && h.isDigit && i.isDigit && j.isDigit
  | _ => false

/-- The date regex `(\d{2}-\d{2}-\d{4})` matches at position `p` of `cs`. -/
def dateAt (cs : List Char) (p : Nat) : Bool :=
  isDatePattern (String.mk ((cs.drop p).take 10))

/-- The character class `[A-Za-z0-9 ,./()_-]` of the purpose regex (source
line 111). -/
def purpClsChar (c : Char) : Bool :=
  c.isAlphanum || c == ' ' || c == ',' || c == '.' || c == '/' || c == '(' ||
    c == ')' || c == '_' || c == '-'

/-- Length of the leading whitespace run. -/
def wsRunLen (cs : List Char) : Nat := (cs.takeWhile pyWs).length

/-- The tail `\s*[:\-]?\s*([A-Za-z0-9 ,./()_-]{3,60})` of the purpose regex,
matched with Python's backtracking order (greedy `\s*` longest first, the
optional punctuation tried present first) right after the label; returns
capture group 2. -/
def purpTail (cs : List Char) : Option (List Char) :=
  ((List.range (wsRunLen cs + 1)).reverse).findSome? fun s1 =>
    let cs1 := cs.drop s1
    let opts : List (List Char) :=
      match cs1 with
      | c :: rest => if c == ':' || c == '-' then [rest, cs1] else [cs1]
      | [] => [[]]
    opts.findSome? fun cs2 =>
      ((List.range (wsRunLen cs2 + 1)).reverse).findSome? fun s2 =>
        let cs3 := cs2.drop s2
        let r := min ((cs3.takeWhile purpClsChar).length) 60
        if 3 ≤ r then some (cs3.take r) else none

/-- Python's `re.search(r"(Purpose|Stage)\s*[:\-]?\s*([A-Za-z0-9 ,./()_-]{3,60})",
window, re.I)` (source line 111), returning group 2 stripped (source line
113): leftmost label position wins; at one position `Purpose` is tried
before `Stage` (they can never both match). -/
def purposeSearch (window : List Char) : Option String :=
  ((List.range (window.length + 1)).findSome? fun i =>
    let rest := window.drop i
    if (stripPrefCI "purpose".data rest).isSome then purpTail (rest.drop 7)
    else if (stripPrefCI "stage".data rest).isSome then purpTail (rest.drop 5)
    else none).map fun g2 => String.mk (pyStrip g2)

/-- The symmetric window of source lines 107-109: `text[max(p-60,0) :
min(p+10+80, len)]` (natural subtraction models the `max`). -/
def windowAt (t : List Char) (p : Nat) : List Char :=
  (t.drop (p - 60)).take (min (p + 90) t.length - (p - 60))

/-- The hearing entry recorded for the date match at position `p` (source
lines 105-114). -/
def mkEntry (t : List Char) (p : Nat) : HearingEntry :=
  { date := String.mk ((t.drop p).take 10), purpose := purposeSearch (windowAt t p) }

/-- The `re.finditer` loop of source lines 104-114: scan left to right; on a
match record an entry and resume after its end (non-overlapping), else step
one character. The fuel argument only bounds the recursion and is chosen
large enough at the call site. -/
def scanDatesAux (t : List Char) : Nat → Nat → List HearingEntry
  | 0, _ => []
  | fuel + 1, p =>
    if p + 10 ≤ t.length then
      if dateAt t p then mkEntry t p :: scanDatesAux t fuel (p + 10)
      else scanDatesAux t fuel (p + 1)
    else []

/-- The hearings list of `parse_case_status_html` (source lines 102-114). -/
def hearingsOf (text : String) : List HearingEntry :=
  scanDatesAux text.data (text.data.length + 1) 0

/-- Claim-side companion of `scanDatesAux`: the positions the non-overlapping
left-to-right scan matches at. -/
def datePositionsAux (t : List Char) : Nat → Nat → List Nat
  | 0, _ => []
  | fuel + 1, p =>
    if p + 10 ≤ t.length then
      if dateAt t p then p :: datePositionsAux t fuel (p + 10)
      else datePositionsAux t fuel (p + 1)
    else []

/-- The matched date positions of the whole text. -/
def datePositions (t : List Char) : List Nat :=
  datePositionsAux t (t.length + 1) 0

/-- The CNR regex `(CNR\s*No\.?)\s*[:\-]?\s*([A-Z0-9]{16})` with `re.I`
(source line 92) matched at position `i`: under `re.I` the class `[A-Z0-9]`
also accepts lowercase letters. The pattern is deterministic (each optional
or starred piece is forced by what can follow), so no backtracking is
needed; group 2 is returned verbatim. -/
def cnrAt (t : List Char) (i : Nat) : Option String :=
  match stripPrefCI ['c', 'n', 'r'] (t.drop i) with
  | none => none
  | some r1 =>
    match stripPrefCI ['n', 'o'] (r1.dropWhile pyWs) with
    | none => none
    | some r3 =>
      let r4 := match r3 with
        | '.' :: u => u
        | other => other
      let r5 := r4.dropWhile pyWs
      let r6 := match r5 with
        | c :: u => if c == ':' || c == '-' then u else r5
        | [] => r5
      let r7 := r6.dropWhile pyWs
      let g := r7.take 16
      if decide (g.length = 16) && g.all Char.isAlphanum then some (String.mk g)
      else none

/-- Python's `re.search` for the CNR pattern over the whole text: the
leftmost matching position wins (source lines 91-94). -/
def cnrOf (s : String) : Option String :=
  (List.range (s.data.length + 1)).findSome? fun i => cnrAt s.data i

/-- The value class `[A-Za-z./\-\s]` of the case-number regex (source
line 87). -/
def caseNoCls (c : Char) : Bool :=
  c.isAlpha || c == '.' || c == '/' || c == '-' || pyWs c

/-- The group `([A-Za-z./\-\s]*\d+\/\d{4})` of the case-number regex, with
the star tried longest first (greedy); `\d+` must swallow a whole digit run
for the following `/` to match. -/
def caseNoGroup (cs3 : List Char) : Option (List Char) :=
  ((List.range ((cs3.takeWhile caseNoCls).length + 1)).reverse).findSome? fun t =>
    let r := ((cs3.drop t).takeWhile Char.isDigit).length
    if decide (1 ≤ r) && charIs cs3 (t + r) '/' && allDigitsAt cs3 (t + r + 1) 4 then
      some (cs3.take (t + r + 1 + 4))
    else none

/-- The tail `\s*[:\-]?\s*` and then the value group of the case-number
regex, with Python's backtracking order. -/
def caseNoTail (cs : List Char) : Option (List Char) :=
  ((List.range (wsRunLen cs + 1)).reverse).findSome? fun s1 =>
    let cs1 := cs.drop s1
    let opts : List (List Char) :=
      match cs1 with
      | c :: rest => if c == ':' || c == '-' then [rest, cs1] else [cs1]
      | [] => [[]]
    opts.findSome? fun cs2 =>
      ((List.range (wsRunLen cs2 + 1)).reverse).findSome? fun s2 =>
        caseNoGroup (cs2.drop s2)

/-- The case-number regex
`(Case\s*No\.?|Case\s*Number)\s*[:\-]?\s*([A-Za-z./\-\s]*\d+\/\d{4})` with
`re.I` (source line 87) matched at position `i`: the first label alternative
(with the optional dot tried present first) is explored fully before the
second. -/
def caseNoAt (t : List Char) (i : Nat) : Option (List Char) :=
  match stripPrefCI ['c', 'a', 's', 'e'] (t.drop i) with
  | none => none
  | some r1 =>
    let r2 := r1.dropWhile pyWs
    let first := match stripPrefCI ['n', 'o'] r2 with
      | some r3 =>
        let opts : List (List Char) := match r3 with
          | '.' :: u => [u, r3]
          | _ => [r3]
        opts.findSome? caseNoTail
      | none => none
    match first with
    | some g => some g
    | none =>
      match stripPrefCI ['n', 'u', 'm', 'b', 'e', 'r'] r2 with
      | some r4 => caseNoTail r4
      | none => none

/-- Source lines 87-89: leftmost match of the case-number regex, group 2
stripped. -/
def caseNoOf (s : String) : Option String :=
  ((List.range (s.data.length + 1)).findSome? fun i => caseNoAt s.data i).map
    fun g => String.mk (pyStrip g)

/-- Characters allowed in the court-name value: anything but a line break
(`[^\n\r]`, source line 97). -/
def notNL (c : Char) : Bool := !(c == '\n' || c == '\r')

/-- The tail `\s*[:\-]?\s*([^\n\r]+)` of the court-name regex. -/
def courtTail (cs : List Char) : Option (List Char) :=
  ((List.range (wsRunLen cs + 1)).reverse).findSome? fun s1 =>
    let cs1 := cs.drop s1
    let opts : List (List Char) :=
      match cs1 with
      | c :: rest => if c == ':' || c == '-' then [rest, cs1] else [cs1]
      | [] => [[]]
    opts.findSome? fun cs2 =>
      ((List.range (wsRunLen cs2 + 1)).reverse).findSome? fun s2 =>
        let g := (cs2.drop s2).takeWhile notNL
        if 1 ≤ g.length then some g else none

/-- The court-name regex `(Court\s*Name|Court)\s*[:\-]?\s*([^\n\r]+)` with
`re.I` (source line 97) matched at position `i`: the `Court\s*Name`
alternative is explored fully before plain `Court`. -/
def courtAt (t : List Char) (i : Nat) : Option (List Char) :=
  match stripPrefCI ['c', 'o', 'u', 'r', 't'] (t.drop i) with
  | none => none
  | some r1 =>
    let first := match stripPrefCI ['n', 'a', 'm', 'e'] (r1.dropWhile pyWs) with
      | some r3 => courtTail r3
      | none => none
    match first with
    | some g => some g
    | none => courtTail r1

/-- Source lines 96-99: leftmost match of the court-name regex, group 2
stripped. -/
def courtNameOf (s : String) : Option String :=
  ((List.range (s.data.length + 1)).findSome? fun i => courtAt s.data i).map
    fun g => String.mk (pyStrip g)

/-- The parsed case-status record (source lines 116-121). -/
structure CaseOverview where
  cnr : Option String
  case_number : Option String
  court_name : Option String
  hearings : List HearingEntry
deriving DecidableEq, Repr

/-- The Case-Status Extractor, source lines 76-121, over the flattened page
text. -/
def parse_case_status_html (text : String) : CaseOverview :=
  { cnr := cnrOf text
    case_number := caseNoOf text
    court_name := courtNameOf text
    hearings := hearingsOf text }

theorem scanDatesAux_eq_map (t : List Char) :
    ∀ fuel p, scanDatesAux t fuel p = (datePositionsAux t fuel p).map (mkEntry t) := by
  intro fuel
  induction fuel with
  | zero => intro p; rfl
  | succ fuel ih =>
    intro p
    simp only [scanDatesAux, datePositionsAux]
    by_cases h1 : p + 10 ≤ t.length
    · rw [if_pos h1, if_pos h1]
      by_cases h2 : dateAt t p = true
      · rw [if_pos h2, if_pos h2, List.map_cons, ih]
      · rw [if_neg h2, if_neg h2, ih]
    · rw [if_neg h1, if_neg h1]
      rfl

theorem datePositionsAux_mem (t : List Char) :
    ∀ fuel p q, q ∈ datePositionsAux t fuel p → dateAt t q = true ∧ p ≤ q := by
  intro fuel
  induction fuel with
  | zero => intro p q h; cases h
  | succ fuel ih =>
    intro p q h
    simp only [datePositionsAux] at h
    by_cases h1 : p + 10 ≤ t.length
    · rw [if_pos h1] at h
      by_cases h2 : dateAt t p = true
      · rw [if_pos h2] at h
        rcases List.mem_cons.mp h with rfl | h3
        · exact ⟨h2, Nat.le_refl q⟩
        · obtain ⟨hd, hge⟩ := ih (p + 10) q h3
          exact ⟨hd, by omega⟩
      · rw [if_neg h2] at h
        obtain ⟨hd, hge⟩ := ih (p + 1) q h
        exact ⟨hd, by omega⟩
    · rw [if_neg h1] at h
      cases h

theorem datePositionsAux_chain (t : List Char) :
    ∀ fuel p, List.Chain' (fun a b => a + 10 ≤ b) (datePositionsAux t fuel p) := by
  intro fuel
  induction fuel with
  | zero => intro p; exact List.chain'_nil
  | succ fuel ih =>
    intro p
    simp only [datePositionsAux]
    by_cases h1 : p + 10 ≤ t.length
    · rw [if_pos h1]
      by_cases h2 : dateAt t p = true
      · rw [if_pos h2]
        rw [List.chain'_cons']
        refine ⟨?_, ih (p + 10)⟩
        intro y hy
        have hmem : y ∈ datePositionsAux t fuel (p + 10) := List.mem_of_mem_head? hy
        exact (datePositionsAux_mem t fuel (p + 10) y hmem).2
      · rw [if_neg h2]
        exact ih (p + 1)
    · rw [if_neg h1]
      exact List.chain'_nil

theorem dateAt_add_le (t : List Char) (q : Nat) (h : dateAt t q = true) :
    q + 10 ≤ t.length := by
  unfold dateAt isDatePattern at h
  split at h
  case h_1 a b c d e f g hh i j heq =>
    have hlen := congrArg List.length heq
    simp only [String.mk] at hlen
    rw [List.length_take, List.length_drop] at hlen
    simp at hlen
    omega
  case h_2 => cases h

theorem datePositionsAux_complete (t : List Char) :
    ∀ fuel p q, t.length + 1 ≤ fuel + p → p ≤ q → dateAt t q = true →
      ∃ r ∈ datePositionsAux t fuel p, r ≤ q ∧ q < r + 10 := by
  intro fuel
  induction fuel with
  | zero =>
    intro p q hf hpq hq
    have := dateAt_add_le t q hq
    omega
  | succ fuel ih =>
    intro p q hf hpq hq
    have hqlen := dateAt_add_le t q hq
    simp only [datePositionsAux]
    by_cases h1 : p + 10 ≤ t.length
    · rw [if_pos h1]
      by_cases h2 : dateAt t p = true
      · rw [if_pos h2]
        by_cases h3 : q < p + 10
        · exact ⟨p, List.mem_cons_self _ _, hpq, h3⟩
        · obtain ⟨r, hr, h4, h5⟩ := ih (p + 10) q (by omega) (by omega) hq
          exact ⟨r, List.mem_cons_of_mem _ hr, h4, h5⟩
      · rw [if_neg h2]
        have hne : p ≠ q := fun he => h2 (he ▸ hq)
        exact ih (p + 1) q (by omega) (by omega) hq
    · rw [if_neg h1]
      exact absurd hqlen (by omega)

/-- C7 (amended): the hearings list records exactly one entry per date match
of the non-overlapping left-to-right scan (`re.finditer` resumes after each
match's end, so occurrences overlapping a previous match are not recorded):
entries are the matched positions in scan order, each entry is built from
its position via the 60-before/80-after window, every recorded position
matches the date pattern, consecutive recorded positions are at least 10
apart, and every position where the date pattern matches is within 10
characters of a recorded one. -/
theorem extract_case_overview_hearings_scan (s : String) :
    (parse_case_status_html s).hearings = (datePositions s.data).map (mkEntry s.data)
    ∧ (∀ p ∈ datePositions s.data, dateAt s.data p = true)
    ∧ List.Chain' (fun a b => a + 10 ≤ b) (datePositions s.data)
    ∧ ∀ q, dateAt s.data q = true →
        ∃ r ∈ datePositions s.data, r ≤ q ∧ q < r + 10 := by
  refine ⟨?_, ?_, ?_, ?_⟩
  · exact scanDatesAux_eq_map s.data (s.data.length + 1) 0
  · intro p hp
    exact (datePositionsAux_mem s.data (s.data.length + 1) 0 p hp).1
  · exact datePositionsAux_chain s.data (s.data.length + 1) 0
  · intro q hq
    exact datePositionsAux_complete s.data (s.data.length + 1) 0 q (by omega)
      (Nat.zero_le q) hq

/-- C7 counterexample: in `"12-34-5678-90-1234"` the date pattern occurs at
two (overlapping) positions, but only one hearing entry is recorded, so the
claim's one-entry-per-occurrence reading is false. -/
theorem hearings_overlap_counterexample :
    (List.range ("12-34-5678-90-1234".data.length)).countP
        (fun p => dateAt "12-34-5678-90-1234".data p) = 2 ∧
      (hearingsOf "12-34-5678-90-1234").length = 1 := by decide

theorem pyStrip_stable_head (l : List Char) :
    (pyStrip l).dropWhile pyWs = pyStrip l := by
  cases h : pyStrip l with
  | nil => rfl
  | cons c t =>
    rw [List.dropWhile_cons, if_neg]
    rw [pyStrip_head_false h]
    simp

theorem pyStrip_length_le (l : List Char) : (pyStrip l).length ≤ l.length := by
  unfold pyStrip
  rw [List.length_reverse]
  calc ((l.dropWhile pyWs).reverse.dropWhile pyWs).length
      ≤ (l.dropWhile pyWs).reverse.length := length_dropWhile_le pyWs _
    _ = (l.dropWhile pyWs).length := List.length_reverse _
    _ ≤ l.length := length_dropWhile_le pyWs l

theorem purpTail_some_len {cs g2 : List Char} (h : purpTail cs = some g2) :
    g2.length ≤ 60 := by
  unfold purpTail at h
  obtain ⟨s1, -, h1⟩ := List.exists_of_findSome?_eq_some h
  dsimp only at h1
  obtain ⟨cs2, -, h2⟩ := List.exists_of_findSome?_eq_some h1
  obtain ⟨s2, -, h3⟩ := List.exists_of_findSome?_eq_some h2
  split at h3
  · injection h3 with h4
    subst h4
    rw [List.length_take]
    have : min (((cs2.drop s2).takeWhile purpClsChar).length) 60 ≤ 60 :=
      Nat.min_le_right _ _
    omega
  · cases h3

theorem purposeSearch_some {window : List Char} {pstr : String}
    (h : purposeSearch window = some pstr) :
    ∃ g2 : List Char, pstr = String.mk (pyStrip g2) ∧ g2.length ≤ 60 := by
  unfold purposeSearch at h
  obtain ⟨o, ho, hmap⟩ := Option.map_eq_some'.mp h
  obtain ⟨i, -, hi⟩ := List.exists_of_findSome?_eq_some ho
  dsimp only at hi
  split at hi
  · exact ⟨o, hmap.symm, purpTail_some_len hi⟩
  · split at hi
    · exact ⟨o, hmap.symm, purpTail_some_len hi⟩
    · cases hi

/-- C3 (amended): every recorded hearing's `date` matches the fixed
`\d{2}-\d{2}-\d{4}` pattern, and its `purpose` is absent or a string of at
most 60 characters with no leading or trailing whitespace; the purpose may
be the empty string when the matched text was all spaces, which is the one
point where the original claim fails. -/
theorem hearing_entry_invariants (s : String) :
    ∀ e ∈ (parse_case_status_html s).hearings,
      isDatePattern e.date = true ∧
        ∀ pstr, e.purpose = some pstr →
          pstr.data.dropWhile pyWs = pstr.data ∧
            pstr.data.reverse.dropWhile pyWs = pstr.data.reverse ∧
            pstr.data.length ≤ 60 := by
  intro e he
  have hmap : (parse_case_status_html s).hearings =
      (datePositions s.data).map (mkEntry s.data) :=
    scanDatesAux_eq_map s.data (s.data.length + 1) 0
  rw [hmap] at he
  obtain ⟨p, hp, rfl⟩ := List.mem_map.mp he
  have hd : dateAt s.data p = true :=
    (datePositionsAux_mem s.data (s.data.length + 1) 0 p hp).1
  refine ⟨hd, ?_⟩
  intro pstr hsome
  have hps : purposeSearch (windowAt s.data p) = some pstr := hsome
  obtain ⟨g2, rfl, hlen⟩ := purposeSearch_some hps
  refine ⟨pyStrip_stable_head g2, pyStrip_reverse_stable g2, ?_⟩
  calc (pyStrip g2).length ≤ g2.length := pyStrip_length_le g2
    _ ≤ 60 := hlen

/-- C3 witness: the sample text yields one entry whose date matches the
pattern and whose purpose is trimmed and short. -/
theorem hearing_entry_invariants_witness :
    isDatePattern (HearingEntry.mk "05-03-2025" (some "Arguments")).date = true ∧
      ∀ pstr, (HearingEntry.mk "05-03-2025" (some "Arguments")).purpose = some pstr →
        pstr.data.dropWhile pyWs = pstr.data ∧
          pstr.data.reverse.dropWhile pyWs = pstr.data.reverse ∧
          pstr.data.length ≤ 60 :=
  hearing_entry_invariants "05-03-2025 Purpose: Arguments"
    (HearingEntry.mk "05-03-2025" (some "Arguments")) (by decide)

/-- C3 counterexample: on `"01-01-2020 Purpose    "` the purpose regex
matches three spaces, which strip to the empty string: the recorded purpose
is `some ""`, not absent, refuting "never an empty string". -/
theorem hearing_empty_purpose_counterexample :
    (parse_case_status_html "01-01-2020 Purpose    ").hearings =
      [HearingEntry.mk "01-01-2020" (some "")] := by decide

theorem findSome?_singleton {β : Type} (f : Nat → Option β) (n : Nat) :
    List.findSome? f [n] = f n := by
  rw [List.findSome?_cons]
  cases f n <;> rfl

theorem findSome?_range_first {β : Type} (f : Nat → Option β) :
    ∀ (n : Nat) (b : β), (List.range n).findSome? f = some b →
      ∃ i, i < n ∧ f i = some b ∧ ∀ j < i, f j = none := by
  intro n
  induction n with
  | zero => intro b h; cases h
  | succ n ih =>
    intro b h
    rw [List.range_succ, List.findSome?_append, findSome?_singleton] at h
    cases hn : (List.range n).findSome? f with
    | some c =>
      rw [hn] at h
      simp only [Option.or] at h
      injection h with h
      subst h
      obtain ⟨i, hi, hf, hj⟩ := ih c hn
      exact ⟨i, by omega, hf, hj⟩
    | none =>
      rw [hn] at h
      simp only [Option.or] at h
      refine ⟨n, by omega, h, ?_⟩
      intro j hj
      exact List.findSome?_eq_none_iff.mp hn j (List.mem_range.mpr hj)

theorem cnrAt_past (t : List Char) (i : Nat) (h : t.length ≤ i) :
    cnrAt t i = none := by
  unfold cnrAt
  rw [List.drop_eq_nil_of_le h]
  rfl

/-- The claim-side test: 16 uppercase alphanumeric characters start at
position `i`. -/
def upperRun16At (t : List Char) (i : Nat) : Bool :=
  decide (((t.drop i).take 16).length = 16) &&
    ((t.drop i).take 16).all fun c =>
      decide ('A' ≤ c ∧ c ≤ 'Z') || c.isDigit

/-- C8 (amended): the registry identifier is the 16-character group of the
leftmost position where the case-insensitive CNR pattern matches (under
`re.I` the group accepts lowercase letters as well), and it is absent
exactly when no position matches; in particular a text containing
`"CNR No: "` followed by 16 uppercase alphanumerics at its only matching
position yields exactly that string. -/
theorem extract_cnr_spec (s : String) :
    ((parse_case_status_html s).cnr = none ↔ ∀ i, cnrAt s.data i = none)
    ∧ (∀ r, (parse_case_status_html s).cnr = some r →
        ∃ i, cnrAt s.data i = some r ∧ ∀ j < i, cnrAt s.data j = none)
    ∧ (parse_case_status_html "CNR No: ABCDEFGH12345678").cnr =
        some "ABCDEFGH12345678" := by
  refine ⟨?_, ?_, by decide⟩
  · show cnrOf s = none ↔ _
    unfold cnrOf
    rw [List.findSome?_eq_none_iff]
    constructor
    · intro h i
      by_cases hi : i < s.data.length + 1
      · exact h i (List.mem_range.mpr hi)
      · exact cnrAt_past s.data i (by omega)
    · intro h i _
      exact h i
  · intro r h
    obtain ⟨i, -, hf, hj⟩ := findSome?_range_first (fun i => cnrAt s.data i) _ r h
    exact ⟨i, hf, hj⟩

/-- C8 counterexample: `"CNR No: abcdefghijklmnop"` contains no run of 16
uppercase alphanumeric characters anywhere, yet the extractor returns the
lowercase 16-character string (the regex runs under `re.I`), so the claim
that the identifier is absent in that case is false. -/
theorem cnr_lowercase_counterexample :
    (parse_case_status_html "CNR No: abcdefghijklmnop").cnr =
        some "abcdefghijklmnop" ∧
      ∀ i < ("CNR No: abcdefghijklmnop".data.length),
        upperRun16At ("CNR No: abcdefghijklmnop".data) i = false := by decide

/-- The `listing_details` dict of source lines 492-497. -/
structure ListingDetails where
  serial : String
  court : Option String
  case_text : Option String
  purpose : Option String
deriving DecidableEq, Repr

/-- The listing outcome of one run: `is_listed_today`, `is_listed_tomorrow`
and `listing_details` of `RunResult`. -/
structure ListingDecision where
  listed_today : Option Bool
  listed_tomorrow : Option Bool
  details : Option ListingDetails
deriving DecidableEq, Repr

/-- Source lines 386-388: some hearing's date equals the target string. -/
def is_date_in_hearings (hearings : List HearingEntry) (target : String) : Bool :=
  hearings.any fun h => h.date == target

/-- Python truthiness of the optional `case_key` string (`None` and `""` are
falsy). -/
def keyTruthy : Option String → Bool
  | none => false
  | some k => !k.isEmpty

/-- The Listing Resolver: source lines 484-513 of `main`, with the overview,
schedule rows and identifier as inputs (lines 478-482 compute the identifier)
and the current/next IST day strings (`date_str_ist(0)` / `date_str_ist(1)`)
as parameters, since they come from the clock. Step 1 (lines 488-505): when
rows and an identifier exist, run the matcher; on a match fill the details
and set each requested flag to true, on no match set each requested flag to
false. Step 2 (lines 507-513): when an overview exists, a still-unresolved
requested flag is set from the hearings date check. -/
def resolve_listing (overview : Option CaseOverview) (entries : List ScheduleRow)
    (caseKey : Option String) (wantToday wantTomorrow : Bool)
    (todayStr tomorrowStr : String) : ListingDecision :=
  let step1 : Option ListingDetails × Option Bool × Option Bool :=
    if !entries.isEmpty && keyTruthy caseKey then
      match find_case_in_cause_list entries (caseKey.getD "") with
      | some m =>
        (some { serial := m.serial, court := m.court_info,
                case_text := m.case_text, purpose := m.purpose },
         if wantToday then some true else none,
         if wantTomorrow then some true else none)
      | none =>
        (none,
         if wantToday then some false else none,
         if wantTomorrow then some false else none)
    else (none, none, none)
  match overview, step1 with
  | some ov, (details, lt1, lm1) =>
    if wantToday || wantTomorrow then
      { listed_today :=
          if wantToday && lt1.isNone then
            some (is_date_in_hearings ov.hearings todayStr)
          else lt1
        listed_tomorrow :=
          if wantTomorrow && lm1.isNone then
            some (is_date_in_hearings ov.hearings tomorrowStr)
          else lm1
        details := details }
    else { listed_today := lt1, listed_tomorrow := lm1, details := details }
  | none, (details, lt1, lm1) =>
    { listed_today := lt1, listed_tomorrow := lm1, details := details }

theorem is_date_in_hearings_iff (hs : List HearingEntry) (target : String) :
    is_date_in_hearings hs target = true ↔ ∃ h ∈ hs, h.date = target := by
  simp [is_date_in_hearings]

/-- C5: when schedule rows and a (non-empty) identifier both exist the
resolver runs the matcher; on a match, `details` is filled from the matched
row's serial, court_info, case_text and purpose, and exactly the requested
flags are set to true (the other stays absent); on no match each requested
flag is set to false and `details` stays absent — in both cases regardless
of the overview, whose fallback never overrides a resolved flag. -/
theorem resolve_listing_match_spec (overview : Option CaseOverview)
    (entries : List ScheduleRow) (k : String) (wantToday wantTomorrow : Bool)
    (todayStr tomorrowStr : String)
    (hne : entries ≠ []) (hk : k ≠ "") :
    (∀ m, find_case_in_cause_list entries k = some m →
      resolve_listing overview entries (some k) wantToday wantTomorrow
          todayStr tomorrowStr =
        { listed_today := if wantToday then some true else none,
          listed_tomorrow := if wantTomorrow then some true else none,
          details := some { serial := m.serial, court := m.court_info,
                            case_text := m.case_text, purpose := m.purpose } })
    ∧ (find_case_in_cause_list entries k = none →
      resolve_listing overview entries (some k) wantToday wantTomorrow
          todayStr tomorrowStr =
        { listed_today := if wantToday then some false else none,
          listed_tomorrow := if wantTomorrow then some false else none,
          details := none }) := by
  have hcond : (!entries.isEmpty && keyTruthy (some k)) = true := by
    have hke : k.isEmpty = false := by
      cases hkk : k.isEmpty
      · rfl
      · exact absurd ((String.isEmpty_iff k).mp hkk) hk
    simp [keyTruthy, List.isEmpty_iff, hne, hke]
  constructor
  · intro m hm
    simp only [resolve_listing, hcond, if_true, Option.getD_some, hm]
    cases overview <;> cases wantToday <;> cases wantTomorrow <;> rfl
  · intro hm
    simp only [resolve_listing, hcond, if_true, Option.getD_some, hm]
    cases overview <;> cases wantToday <;> cases wantTomorrow <;> rfl

/-- C5 witness: the sample row matched with only the today flag requested. -/
theorem resolve_listing_match_spec_witness :
    resolve_listing none [sampleRow12] (some "OS 45/2023") true false
        "01-01-2020" "02-01-2020" =
      { listed_today := some true, listed_tomorrow := none,
        details := some { serial := "12", court := none,
                          case_text := some "OS 45/2023", purpose := none } } :=
  (resolve_listing_match_spec none [sampleRow12] "OS 45/2023" true false
      "01-01-2020" "02-01-2020" (by decide) (by decide)).1 sampleRow12 (by decide)

/-- C2 (amended): a requested flag is resolved to true or false exactly when
schedule rows and a non-empty identifier are both present or a case overview
is present; it remains absent when the flag was not requested, or when no
overview exists and the rows or the identifier are missing — so rows alone,
or an identifier alone, leave a requested flag absent, which is where the
original claim fails. -/
theorem resolve_listing_flag_resolution (overview : Option CaseOverview)
    (entries : List ScheduleRow) (caseKey : Option String)
    (wantToday wantTomorrow : Bool) (todayStr tomorrowStr : String) :
    ((resolve_listing overview entries caseKey wantToday wantTomorrow
        todayStr tomorrowStr).listed_today = none ↔
      (wantToday = false ∨ ((entries = [] ∨ keyTruthy caseKey = false) ∧
        overview = none)))
    ∧ ((resolve_listing overview entries caseKey wantToday wantTomorrow
        todayStr tomorrowStr).listed_tomorrow = none ↔
      (wantTomorrow = false ∨ ((entries = [] ∨ keyTruthy caseKey = false) ∧
        overview = none))) := by
  by_cases hcond : (!entries.isEmpty && keyTruthy caseKey) = true
  · have hskip : ¬ (entries = [] ∨ keyTruthy caseKey = false) := by
      rw [Bool.and_eq_true, Bool.not_eq_true'] at hcond
      push_neg
      constructor
      · exact List.isEmpty_iff.not.mp (by simp [hcond.1])
      · simp [hcond.2]
    simp only [resolve_listing, hcond, if_true]
    cases hm : find_case_in_cause_list entries (caseKey.getD "") <;>
      cases overview <;> cases wantToday <;> cases wantTomorrow <;>
        simp [hskip]
  · have hcf : (!entries.isEmpty && keyTruthy caseKey) = false := by
      revert hcond
      cases (!entries.isEmpty && keyTruthy caseKey) <;> simp
    have hskip : entries = [] ∨ keyTruthy caseKey = false := by
      rw [Bool.and_eq_false_iff] at hcf
      rcases hcf with h | h
      · left
        rw [Bool.not_eq_false'] at h
        exact List.isEmpty_iff.mp h
      · right
        exact h
    simp only [resolve_listing, hcf, Bool.false_eq_true, if_false]
    cases overview <;> cases wantToday <;> cases wantTomorrow <;> simp [hskip]

/-- C2 counterexample: schedule rows are present and the today flag
requested, but with no identifier and no overview the flag stays absent —
an available input with the requested flag left unresolved, refuting the
claim as stated. -/
theorem resolve_listing_absent_counterexample :
    ([sampleRow12] ≠ ([] : List ScheduleRow)) ∧
      (resolve_listing none [sampleRow12] none true false
        "01-01-2020" "02-01-2020").listed_today = none := by
  constructor
  · simp
  · rfl

/-- C9: when an overview is present, a date flag is requested, and the
schedule-match step did not run (no rows or no truthy identifier, so the
flag is still absent), the resolver sets the flag to true exactly when some
hearing's date equals the current-day (respectively next-day) DD-MM-YYYY
string; those strings are `date_str_ist(0)` and `date_str_ist(1)`, computed
in a fixed UTC+5:30 offset and passed here as parameters. -/
theorem resolve_listing_hearings_fallback (ov : CaseOverview)
    (entries : List ScheduleRow) (caseKey : Option String)
    (wantToday wantTomorrow : Bool) (todayStr tomorrowStr : String)
    (hskip : entries = [] ∨ keyTruthy caseKey = false) :
    (wantToday = true →
      ((resolve_listing (some ov) entries caseKey wantToday wantTomorrow
          todayStr tomorrowStr).listed_today =
            some (is_date_in_hearings ov.hearings todayStr) ∧
        (is_date_in_hearings ov.hearings todayStr = true ↔
          ∃ h ∈ ov.hearings, h.date = todayStr)))
    ∧ (wantTomorrow = true →
      ((resolve_listing (some ov) entries caseKey wantToday wantTomorrow
          todayStr tomorrowStr).listed_tomorrow =
            some (is_date_in_hearings ov.hearings tomorrowStr) ∧
        (is_date_in_hearings ov.hearings tomorrowStr = true ↔
          ∃ h ∈ ov.hearings, h.date = tomorrowStr))) := by
  have hcf : (!entries.isEmpty && keyTruthy caseKey) = false := by
    rcases hskip with h | h
    · subst h
      rfl
    · rw [h]
      simp
  constructor
  · intro hT
    subst hT
    refine ⟨?_, is_date_in_hearings_iff _ _⟩
    simp only [resolve_listing, hcf, Bool.false_eq_true, if_false]
    rfl
  · intro hM
    subst hM
    refine ⟨?_, is_date_in_hearings_iff _ _⟩
    simp only [resolve_listing, hcf, Bool.false_eq_true, if_false]
    cases wantToday <;> rfl

/-- The sample overview of the specification's test: one hearing on
05-03-2025 for Arguments. -/
def sampleOverview : CaseOverview :=
  { cnr := none, case_number := none, court_name := none,
    hearings := [HearingEntry.mk "05-03-2025" (some "Arguments")] }

/-- C9 witness: with the current date fixed to 05-03-2025, requesting today
on the sample overview yields `listed_today = some true`. -/
theorem resolve_listing_hearings_fallback_witness :
    (resolve_listing (some sampleOverview) [] none true false
      "05-03-2025" "06-03-2025").listed_today = some true := by
  have h := (resolve_listing_hearings_fallback sampleOverview [] none true false
    "05-03-2025" "06-03-2025" (Or.inl rfl)).1 rfl
  rw [h.1]
  decide
